import Mathlib

/-!
Verification of the feed acquisition and normalization pipeline of a
client-side RSS reader (services/rssService.ts and the article-merge logic
of App.tsx).

Modelling conventions:
* JavaScript strings are modelled by Lean `String`; all operations the code
  performs on them (trim, toLowerCase, startsWith, includes, slice) are
  defined below at the `List Char` level, mirroring their JS semantics
  (`slice`/`length` count code units in JS and characters here).
* The browser DOM (`DOMParser`, `querySelector`, `getElementsByTagNameNS`,
  `textContent`, `getAttribute`) is modelled by an explicit node tree
  `XNode`; the string-to-tree step of `DOMParser.parseFromString` is an
  environment oracle (a function field of `Env`), while the tree traversal
  primitives are defined concretely.
* Nondeterministic platform calls (`crypto.randomUUID`, `new Date()`,
  `Date.now()`) are environment oracles as well.
* Network calls (`fetch`) are environment oracles returning either a
  rejection message or a response value.
-/

set_option autoImplicit false

deriving instance DecidableEq for Except

namespace RSS

/-! ## JS string primitives -/

/-- JS `String.prototype.trim` whitespace (the characters relevant here). -/
def isJsWhitespace (c : Char) : Bool :=
  c = ' ' || c = Char.ofNat 9 || c = Char.ofNat 10 || c = Char.ofNat 11 ||
  c = Char.ofNat 12 || c = Char.ofNat 13 || c = Char.ofNat 0xA0 || c = Char.ofNat 0xFEFF

/-- JS `s.trim()`. -/
def jsTrim (s : String) : String :=
  ⟨((s.data.dropWhile isJsWhitespace).reverse.dropWhile isJsWhitespace).reverse⟩

/-- JS `s.toLowerCase()` restricted to ASCII (all markers compared are ASCII). -/
def jsToLower (s : String) : String := ⟨s.data.map Char.toLower⟩

/-- JS `s.startsWith(pre)`. -/
def jsStartsWith (s pre : String) : Bool := pre.data.isPrefixOf s.data

/-- JS `s.includes(sub)`. -/
def jsIncludes (s sub : String) : Bool :=
  (List.range (s.data.length + 1)).any (fun i => sub.data.isPrefixOf (s.data.drop i))

/-- JS `s.slice(0, n)` for `n ≥ 0`. -/
def jsSlice0 (s : String) (n : Nat) : String := ⟨s.data.take n⟩

/-- JS string length. -/
def jsLen (s : String) : Nat := s.data.length

/-- `text.replace(/^﻿/, '')`: strip a single leading byte-order-mark. -/
def stripBom (s : String) : String :=
  match s.data with
  | c :: rest => if c = Char.ofNat 0xFEFF then ⟨rest⟩ else s
  | [] => s

/-! ## DOM tree model -/

/-- A node of a parsed XML/HTML document: an element (with local name,
attributes and children, as produced by `DOMParser`) or a text node. -/
inductive XNode where
  | elem (tag : String) (attrs : List (String × String)) (children : List XNode)
  | text (s : String)
deriving Repr

/-- `Element.getAttribute` (first binding wins; `none` models `null`). -/
def XNode.attr : XNode → String → Option String
  | .elem _ as _, k => (as.find? (fun p => p.1 = k)).map (fun p => p.2)
  | .text _, _ => none

mutual
/-- `Node.textContent`: concatenation of all descendant text nodes. -/
def XNode.textContent : XNode → String
  | .text s => s
  | .elem _ _ cs => textContentList cs

def textContentList : List XNode → String
  | [] => ""
  | n :: ns => XNode.textContent n ++ textContentList ns
end

mutual
/-- Preorder matches in the subtree rooted at a node (the node itself
included), given the tag of its parent — the engine behind the
`querySelector` / `querySelectorAll` / `getElementsByTagNameNS` calls of the
source, which only ever select by (parent tag and) local tag name or
attribute value. -/
def selNode (p : String → XNode → Bool) (parent : String) : XNode → List XNode
  | .text _ => []
  | .elem t a cs =>
      (if p parent (.elem t a cs) then [XNode.elem t a cs] else []) ++ selList p t cs

def selList (p : String → XNode → Bool) (parent : String) : List XNode → List XNode
  | [] => []
  | n :: ns => selNode p parent n ++ selList p parent ns
end

/-- Preorder matches among the strict descendants of an element with tag
`parent` and children `ns`. -/
def selChildren (p : String → XNode → Bool) (parent : String) (ns : List XNode) : List XNode :=
  selList p parent ns

/-- `root.querySelectorAll(sel)`: matches among strict descendants. -/
def qselAll (root : XNode) (p : String → XNode → Bool) : List XNode :=
  match root with
  | .elem t _ cs => selChildren p t cs
  | .text _ => []

/-- `root.querySelector(sel)`. -/
def qsel (root : XNode) (p : String → XNode → Bool) : Option XNode :=
  (qselAll root p).head?

/-- Type-selector list such as `'item, entry'` (matches by local name,
as unprefixed CSS type selectors do in `querySelector`). -/
def byTags (ts : List String) : String → XNode → Bool := fun _ n =>
  match n with
  | .elem t _ _ => ts.contains t
  | .text _ => false

/-- The `'channel > title, feed > title'` selector. -/
def channelOrFeedTitle : String → XNode → Bool := fun parent n =>
  match n with
  | .elem t _ _ => t = "title" && (parent = "channel" || parent = "feed")
  | .text _ => false

/-- `item.getElementsByTagNameNS('*', local)[0]`: first descendant element
with the given local name, in document order. -/
def nsFirst (root : XNode) (local_ : String) : Option XNode :=
  (qselAll root (byTags [local_])).head?

/-! ## Data model -/

/-- The normalized article record of `types.ts`. `Option String` fields model
JS string-or-nullish values; `none` stands for a JS falsy value
(`undefined` / `null` / `''`), which the code uses interchangeably for
"absent" in `thumbnail` and `author`. -/
structure Article where
  id : String
  feedId : String
  title : String
  link : String
  pubDate : String
  content : String
  contentSnippet : String
  thumbnail : Option String
  author : Option String
deriving Repr, DecidableEq

/-- The `{ title, articles }` result of every fetch strategy. -/
structure FeedResult where
  title : String
  articles : List Article
deriving Repr, DecidableEq

/-- Errors of the pipeline: the distinguished `FeedDiscoveryError` (with its
`htmlContent` and `originalUrl` payload) versus every generic `Error`,
which the orchestrator tells apart by `error.name`. -/
inductive FetchErr where
  | discovery (message htmlContent originalUrl : String)
  | generic (message : String)
deriving Repr, DecidableEq

/-- A `fetch` response as far as the code inspects it. -/
structure HttpResp where
  ok : Bool
  status : Nat
  body : String
deriving Repr, DecidableEq

/-- One item of the RSS2JSON payload, as far as the code reads it.
String fields are `""` when the loose JSON field is missing (JS falsy). -/
structure R2JItem where
  title : String
  link : String
  pubDate : String
  content : String
  description : String
  thumbnail : String
  enclosureLink : Option String
  author : Option String
deriving Repr, DecidableEq

/-- The parsed RSS2JSON body. -/
structure R2JData where
  status : String
  message : String
  feedTitle : String
  items : List R2JItem
deriving Repr, DecidableEq

/-- The RSS2JSON HTTP response (`res.ok`, `res.status`, `res.json()`). -/
structure R2JResp where
  ok : Bool
  status : Nat
  payload : R2JData
deriving Repr, DecidableEq

/-- The platform environment: DOM parsing, randomness, clocks and the
network, all deterministic functions of their inputs for one run. -/
structure Env where
  parseXml : String → XNode
  parseHtml : String → XNode
  genId : Nat → String
  nowISO : String
  nowMs : Nat
  httpGet : String → Except String HttpResp
  r2jFetch : String → Except String R2JResp
  resolveUrl : String → String → Option String

/-! ## encodeURIComponent -/

def hexDigit (n : Nat) : Char := if n < 10 then Char.ofNat (48 + n) else Char.ofNat (55 + n)

def percentEnc (b : Nat) : List Char := ['%', hexDigit (b / 16), hexDigit (b % 16)]

/-- UTF-8 bytes of one code point. -/
def utf8Bytes (c : Char) : List Nat :=
  let n := c.toNat
  if n < 0x80 then [n]
  else if n < 0x800 then [0xC0 + n / 64, 0x80 + n % 64]
  else if n < 0x10000 then [0xE0 + n / 4096, 0x80 + (n / 64) % 64, 0x80 + n % 64]
  else [0xF0 + n / 262144, 0x80 + (n / 4096) % 64, 0x80 + (n / 64) % 64, 0x80 + n % 64]

def isUriUnreserved (c : Char) : Bool :=
  c.isAlpha || c.isDigit ||
  ['-', '_', '.', '!', '~', '*', Char.ofNat 39, '(', ')'].contains c

/-- JS `encodeURIComponent`. -/
def encodeURIComponent (s : String) : String :=
  ⟨(s.data.map (fun c =>
      if isUriUnreserved c then [c] else ((utf8Bytes c).map percentEnc).flatten)).flatten⟩

/-! ## Format normalizer: parseXmlFeed -/

/-- `node?.textContent || default` (JS `||`: the empty string is falsy). -/
def textOr (n : Option XNode) (d : String) : String :=
  match n with
  | some x => let t := x.textContent; if t = "" then d else t
  | none => d

/-- Collapse a JS falsy string-or-nullish to `none`. -/
def jsTruthyOpt (o : Option String) : Option String :=
  match o with
  | some s => if s = "" then none else some s
  | none => none

/-- `n.getAttribute(k)` under JS truthiness (`some` only for a nonempty value). -/
def jsAttrTruthy (n : XNode) (k : String) : Option String := jsTruthyOpt (n.attr k)

/-- The plain-text snippet: `t.slice(0, 300).trim() + (t && t.length > 300 ? '...' : '')`
applied to the body text of the content parsed as HTML. -/
def makeSnippet (bodyText : String) : String :=
  jsTrim (jsSlice0 bodyText 300) ++ (if 300 < jsLen bodyText then "..." else "")

/-- `doc.body` of an HTML parse (the DOM always provides one; an empty body
stands in if the oracle tree has none). -/
def docBody (doc : XNode) : XNode :=
  ((qselAll doc (byTags ["body"])).head?).getD (XNode.elem "body" [] [])

/-- `enclosure && enclosure.getAttribute('type')?.startsWith('image')`. -/
def enclosureImageGuard (enc : Option XNode) : Bool :=
  match enc with
  | some e =>
      match e.attr "type" with
      | some t => jsStartsWith t "image"
      | none => false
  | none => false

/-- The thumbnail if-chain of `parseXmlFeed`. -/
def itemThumbnail (mediaContent enclosure imgInContent : Option XNode) : Option String :=
  match mediaContent.bind (fun m => jsAttrTruthy m "url") with
  | some u => some u
  | none =>
      if enclosureImageGuard enclosure then
        jsTruthyOpt (enclosure.bind (fun e => e.attr "url"))
      else
        match imgInContent with
        | some im => jsTruthyOpt (im.attr "src")
        | none => none

/-- The content choice of `parseXmlFeed`:
`contentEncoded || description || ''`. -/
def itemContent (item : XNode) : String :=
  let contentEncoded := (nsFirst item "encoded").map XNode.textContent
  let description := textOr (qsel item (byTags ["description", "summary"])) ""
  match contentEncoded with
  | some s => if s = "" then description else s
  | none => description

/-- The per-item extraction of `parseXmlFeed` (the body of `items.map`). -/
def processItem (env : Env) (feedId : String) (idx : Nat) (item : XNode) : Article :=
  let itemTitle := textOr (qsel item (byTags ["title"])) "Bez názvu"
  let linkNode := qsel item (byTags ["link"])
  let link0 := textOr linkNode ""
  let link :=
    if link0 = "" then
      match linkNode.bind (fun n => n.attr "href") with
      | some h => if h = "" then link0 else h
      | none => link0
    else link0
  let pubDate := textOr (qsel item (byTags ["pubDate", "published", "updated", "date"])) env.nowISO
  let content := itemContent item
  let doc := env.parseHtml content
  let contentSnippet := makeSnippet (docBody doc).textContent
  let thumbnail := itemThumbnail (nsFirst item "content") (qsel item (byTags ["enclosure"]))
      (qsel doc (byTags ["img"]))
  { id := env.genId idx, feedId := feedId, title := itemTitle, link := link,
    pubDate := pubDate, content := content, contentSnippet := contentSnippet,
    thumbnail := thumbnail,
    author := jsTruthyOpt ((qsel item (byTags ["author", "creator"])).map XNode.textContent) }

/-- `parseXmlFeed(text, feedId, originalUrl)`. -/
def parseXmlFeed (env : Env) (text0 feedId originalUrl : String) : Except FetchErr FeedResult :=
  let text := stripBom text0
  let trimmed := jsTrim text
  let lowerText := jsToLower trimmed
  let isHtml := jsStartsWith lowerText "<!doctype html" || jsStartsWith lowerText "<html"
  let isRss := jsIncludes lowerText "<rss" || jsIncludes lowerText "<feed" ||
      jsIncludes lowerText "<rdf:rdf"
  if isHtml && !isRss then
    .error (.discovery "Received HTML page instead of XML" text originalUrl)
  else
    let xml := env.parseXml text
    match qsel xml (byTags ["parsererror"]) with
    | some errorNode =>
        if jsIncludes trimmed "<html" || jsIncludes trimmed "<body" then
          .error (.discovery "XML Parsing failed, content looks like HTML" text originalUrl)
        else
          .error (.generic ("Chyba při parsování XML: " ++ "XML Parser Error: " ++
            errorNode.textContent))
    | none =>
        let title := textOr (qsel xml channelOrFeedTitle) "Neznámý zdroj"
        let items := qselAll xml (byTags ["item", "entry"])
        .ok { title := title,
              articles := items.enum.map (fun p => processItem env feedId p.1 p.2) }

/-! ## Feed discovery: getFeedUrlFromHtml -/

/-- `link[type="application/rss+xml"], link[type="application/atom+xml"]`. -/
def isFeedLinkEl : String → XNode → Bool := fun _ n =>
  match n with
  | .elem t _ _ =>
      t == "link" && (XNode.attr n "type" == some "application/rss+xml" ||
        XNode.attr n "type" == some "application/atom+xml")
  | .text _ => false

/-- `getFeedUrlFromHtml(html, baseUrl)`; `env.resolveUrl` models `new URL(href, base).href`
(`none` = the constructor throws, in which case the raw `href` is returned). -/
def getFeedUrlFromHtml (env : Env) (html baseUrl : String) : Option String :=
  let doc := env.parseHtml html
  match (qselAll doc isFeedLinkEl).head? with
  | some l =>
      match l.attr "href" with
      | some href =>
          if href = "" then none
          else some ((env.resolveUrl href baseUrl).getD href)
      | none => none
  | none => none

/-! ## Remote fallback: fetchWithRss2Json -/

/-- The regex replace `/<[^>]*>/g` of the fallback's snippet, with an explicit
fuel that is always sufficient (each step consumes at least one character). -/
def stripTagsAux : Nat → List Char → List Char
  | 0, l => l
  | _, [] => []
  | fuel + 1, c :: rest =>
      if c = '<' && rest.contains '>' then
        stripTagsAux fuel ((rest.dropWhile (fun x => x != '>')).drop 1)
      else c :: stripTagsAux fuel rest

def stripTags (l : List Char) : List Char := stripTagsAux l.length l

/-- The item mapping of `fetchWithRss2Json`. -/
def r2jArticle (env : Env) (feedId : String) (idx : Nat) (it : R2JItem) : Article :=
  { id := env.genId idx, feedId := feedId, title := it.title, link := it.link,
    pubDate := it.pubDate,
    content := if it.content = "" then it.description else it.content,
    contentSnippet :=
      ⟨(stripTags (if it.description = "" then it.content else it.description).data).take 300⟩,
    thumbnail := if it.thumbnail = "" then jsTruthyOpt it.enclosureLink else some it.thumbnail,
    author := it.author }

def rss2jsonApiUrl (url : String) : String :=
  "https://api.rss2json.com/v1/api.json?rss_url=" ++ encodeURIComponent url

/-- `fetchWithRss2Json(url, feedId)`. -/
def fetchWithRss2Json (env : Env) (url feedId : String) : Except FetchErr FeedResult :=
  match env.r2jFetch (rss2jsonApiUrl url) with
  | .error e => .error (.generic e)
  | .ok res =>
      if !res.ok then
        .error (.generic ("RSS2JSON failed with status " ++ toString res.status))
      else if res.payload.status ≠ "ok" then
        .error (.generic ("RSS2JSON failed: " ++ res.payload.message))
      else
        .ok { title := res.payload.feedTitle,
              articles := res.payload.items.enum.map (fun p => r2jArticle env feedId p.1 p.2) }

/-! ## Transport layer: fetchRawText -/

/-- The per-attempt abort deadline (ms) armed before every relay request. -/
def timeoutMs : Nat := 12000

/-- The fixed, ordered relay list (`Date.now()` is the cache-busting query
of the first relay; timeouts surface as `env.httpGet` rejections). -/
def PROXIES (nowMs : Nat) : List (String → String) :=
  [ fun url => "https://api.allorigins.win/raw?url=" ++ encodeURIComponent url ++
      "&t=" ++ toString nowMs,
    fun url => "https://api.codetabs.com/v1/proxy?quest=" ++ encodeURIComponent url,
    fun url => "https://yacdn.org/proxy/" ++ url,
    fun url => "https://thingproxy.freeboard.io/fetch/" ++ url ]

/-- One loop iteration of `fetchRawText`: the `fetch`, the `response.ok`
check and the empty-body check (`!text || text.trim().length === 0`). -/
def tryProxy (env : Env) (url : String) (createProxyUrl : String → String) :
    Except String String :=
  match env.httpGet (createProxyUrl url) with
  | .error e => .error e
  | .ok response =>
      if !response.ok then .error ("HTTP error! status: " ++ toString response.status)
      else if jsTrim response.body = "" then .error "Empty response"
      else .ok response.body

/-- The relay loop with its `lastError` accumulator and the final
`throw lastError || new Error('Failed to fetch feed from all proxies')`. -/
def fetchRawTextGo (env : Env) (url : String) :
    List (String → String) → Option String → Except String String
  | [], lastError => .error (lastError.getD "Failed to fetch feed from all proxies")
  | b :: bs, _lastError =>
      match tryProxy env url b with
      | .ok text => .ok text
      | .error e => fetchRawTextGo env url bs (some e)

/-- `fetchRawText(url)`. -/
def fetchRawText (env : Env) (url : String) : Except String String :=
  fetchRawTextGo env url (PROXIES env.nowMs) none

/-! ## Orchestrator: fetchFeed -/

/-- Observable pipeline events, recorded for the theorems about how often
and with which URL each strategy runs. -/
inductive Ev where
  | direct (url : String)
  | discover (url : String)
  | fallback (url : String)
deriving Repr, DecidableEq

/-- Strategy 1: the transport + normalizer chain of `fetchFeed`'s `try` block. -/
def directFetch (env : Env) (url feedId : String) : Except FetchErr FeedResult :=
  match fetchRawText env url with
  | .error e => .error (.generic e)
  | .ok text => parseXmlFeed env text feedId url

/-- `fetchFeed(url, feedId)`, with a fuel bound standing in for the
call stack of the unbounded recursion (the `0` case is a model artifact
never reached by the theorems below), and the event trace alongside
the result. -/
def fetchFeed (env : Env) : Nat → String → String → Except FetchErr FeedResult × List Ev
  | 0, _, _ => (.error (.generic "recursion fuel exhausted"), [])
  | fuel + 1, url, feedId =>
      match directFetch env url feedId with
      | .ok r => (.ok r, [.direct url])
      | .error e =>
          match e with
          | .discovery _ htmlContent _ =>
              match getFeedUrlFromHtml env htmlContent url with
              | some discoveredUrl =>
                  if discoveredUrl ≠ "" ∧ discoveredUrl ≠ url then
                    let res := fetchFeed env fuel discoveredUrl feedId
                    (res.1, .direct url :: .discover url :: res.2)
                  else
                    (fetchWithRss2Json env url feedId,
                      [.direct url, .discover url, .fallback url])
              | none =>
                  (fetchWithRss2Json env url feedId,
                    [.direct url, .discover url, .fallback url])
          | .generic _ => (fetchWithRss2Json env url feedId, [.direct url, .fallback url])

/-! ## Article-state merges of App.tsx -/

/-- `Map.prototype.set` on an insertion-ordered map: an existing key keeps
its position and gets the new value, a fresh key is appended. -/
def mapSet (m : List (String × Article)) (k : String) (v : Article) : List (String × Article) :=
  if m.any (fun p => p.1 = k) then
    m.map (fun p => if p.1 = k then (k, v) else p)
  else m ++ [(k, v)]

/-- `new Map(list.map(item => [item.link, item]))`. -/
def jsMapOfLinks (l : List Article) : List (String × Article) :=
  l.foldl (fun m a => mapSet m a.link a) []

/-- `Array.from(new Map(list.map(item => [item.link, item])).values())`. -/
def dedupByLink (l : List Article) : List Article :=
  (jsMapOfLinks l).map (fun p => p.2)

/-- `refreshFeeds`: the fulfilled results are concatenated in feed order and
deduplicated; the article state is replaced by the outcome. -/
def refreshMergedArticles (results : List (List Article)) : List Article :=
  dedupByLink results.flatten

/-- `addFeed`: `prev` articles and the newly fetched ones are concatenated
and deduplicated; the article state is replaced by the outcome. -/
def addFeedMergedArticles (prev newArticles : List Article) : List Article :=
  dedupByLink (prev ++ newArticles)

/-! ## Generic lemmas about the JS string primitives -/

theorem jsTrim_data_length_le (s : String) : (jsTrim s).data.length ≤ s.data.length := by
  have h1 := (List.dropWhile_sublist (l := s.data) isJsWhitespace).length_le
  have h2 := (List.dropWhile_sublist (l := (s.data.dropWhile isJsWhitespace).reverse)
      isJsWhitespace).length_le
  simp only [jsTrim, List.length_reverse] at *
  omega

theorem mem_of_mem_jsTrim {c : Char} {s : String} (h : c ∈ (jsTrim s).data) : c ∈ s.data := by
  simp only [jsTrim, List.mem_reverse] at h
  have h2 := (List.dropWhile_sublist (l := (s.data.dropWhile isJsWhitespace).reverse)
      isJsWhitespace).subset h
  rw [List.mem_reverse] at h2
  exact (List.dropWhile_sublist (l := s.data) isJsWhitespace).subset h2

theorem makeSnippet_length_le (t : String) : jsLen (makeSnippet t) ≤ 303 := by
  have h1 := jsTrim_data_length_le (jsSlice0 t 300)
  have h2 : (jsSlice0 t 300).data.length ≤ 300 := by
    simp only [jsSlice0, List.length_take]
    omega
  have h3 : (jsTrim (jsSlice0 t 300)).length = (jsTrim (jsSlice0 t 300)).data.length := rfl
  simp only [makeSnippet, jsLen, String.data_append, List.length_append]
  split <;> simp <;> omega

theorem makeSnippet_tagFree {t : String} (h : '<' ∉ t.data) : '<' ∉ (makeSnippet t).data := by
  simp only [makeSnippet, String.data_append, List.mem_append]
  intro hc
  rcases hc with hc | hc
  · have h3 := mem_of_mem_jsTrim hc
    simp only [jsSlice0] at h3
    exact h ((List.take_sublist 300 t.data).subset h3)
  · revert hc
    split <;> decide

/-! ## Concrete environments for witnesses and counterexamples -/

/-- An environment whose oracles are constant (offline network, empty DOM). -/
def plainEnv : Env :=
  { parseXml := fun _ => .elem "#document" [] [],
    parseHtml := fun _ => .elem "html" [] [.elem "body" [] []],
    genId := fun n => toString n,
    nowISO := "1970-01-01T00:00:00.000Z",
    nowMs := 0,
    httpGet := fun _ => .error "offline",
    r2jFetch := fun _ => .error "offline",
    resolveUrl := fun _ _ => none }

/-- An HTML page preceded by a byte-order-mark. -/
def bomHtmlText : String := ⟨Char.ofNat 0xFEFF :: "<!doctype html><p>x</p>".data⟩

/-! ## C1 -/

/-- C1 (counterexample): on an input that begins with a byte-order-mark
followed by an HTML doctype and no feed marker, `parseXmlFeed` does fail
with the distinguished discovery error, but the error carries the
BOM-stripped text, which differs from the raw input text — so the claim
"carrying the raw text", read over every input, is false. -/
theorem parseXmlFeed_bom_text_cex :
    jsStartsWith (jsToLower (jsTrim (stripBom bomHtmlText))) "<!doctype html" = true ∧
    jsIncludes (jsToLower (jsTrim (stripBom bomHtmlText))) "<rss" = false ∧
    jsIncludes (jsToLower (jsTrim (stripBom bomHtmlText))) "<feed" = false ∧
    jsIncludes (jsToLower (jsTrim (stripBom bomHtmlText))) "<rdf:rdf" = false ∧
    parseXmlFeed plainEnv bomHtmlText "feed1" "https://example.com/feed" =
      .error (.discovery "Received HTML page instead of XML" "<!doctype html><p>x</p>"
        "https://example.com/feed") ∧
    "<!doctype html><p>x</p>" ≠ bomHtmlText := by
  decide

/-- C1 (amended): for every input text whose trimmed, BOM-stripped form
starts (case-insensitively) with an HTML doctype or an `<html` root tag and
which contains no `<rss`, `<feed`, or `<rdf:rdf` marker anywhere,
`parseXmlFeed` fails with the distinguished `FeedDiscoveryError` carrying
the BOM-stripped input text and the original URL — never a generic parse
failure. The theorem holds for every environment `env`, in particular for
any behaviour of the XML parser oracle: XML parsing is never attempted. -/
theorem parseXmlFeed_html_yields_discovery (env : Env) (text feedId url : String)
    (hHtml : jsStartsWith (jsToLower (jsTrim (stripBom text))) "<!doctype html" = true ∨
      jsStartsWith (jsToLower (jsTrim (stripBom text))) "<html" = true)
    (hNoRss : jsIncludes (jsToLower (jsTrim (stripBom text))) "<rss" = false ∧
      jsIncludes (jsToLower (jsTrim (stripBom text))) "<feed" = false ∧
      jsIncludes (jsToLower (jsTrim (stripBom text))) "<rdf:rdf" = false) :
    parseXmlFeed env text feedId url =
      .error (.discovery "Received HTML page instead of XML" (stripBom text) url) := by
  obtain ⟨h1, h2, h3⟩ := hNoRss
  rcases hHtml with h | h <;> simp [parseXmlFeed, h, h1, h2, h3]

/-- C1 (witness for the amended theorem). -/
theorem parseXmlFeed_html_yields_discovery_witness :
    parseXmlFeed plainEnv "<html><p>hi</p></html>" "f" "u" =
      .error (.discovery "Received HTML page instead of XML" "<html><p>hi</p></html>" "u") :=
  parseXmlFeed_html_yields_discovery plainEnv "<html><p>hi</p></html>" "f" "u"
    (Or.inr (by decide)) ⟨by decide, by decide, by decide⟩

/-! ## C4 -/

/-- C4: every article produced by the normalizer `parseXmlFeed` has a
`contentSnippet` of length at most 303 (300 content characters plus up to
3 ellipsis characters), and the snippet is free of HTML markup provided the
DOM's plain-text extraction (`doc.body.textContent` of an HTML parse) is —
which is the browser contract the code relies on. -/
theorem parseXmlFeed_snippet_bounded (env : Env) (text feedId url : String) (r : FeedResult)
    (hok : parseXmlFeed env text feedId url = .ok r)
    (hdom : ∀ s, '<' ∉ ((docBody (env.parseHtml s)).textContent).data) :
    ∀ a ∈ r.articles, jsLen a.contentSnippet ≤ 303 ∧ '<' ∉ a.contentSnippet.data := by
  intro a ha
  simp only [parseXmlFeed] at hok
  split at hok
  · exact absurd hok (by simp)
  · split at hok
    · split at hok <;> exact absurd hok (by simp)
    · rw [Except.ok.injEq] at hok
      subst hok
      simp only [List.mem_map] at ha
      obtain ⟨p, _, hpa⟩ := ha
      subst hpa
      simp only [processItem]
      exact ⟨makeSnippet_length_le _, makeSnippet_tagFree (hdom _)⟩

/-- Environment for the C4 witness: a one-item feed tree, and an HTML parse
oracle whose body text never contains markup. -/
def c4Env : Env := { plainEnv with
  parseXml := fun _ => .elem "#document" [] [.elem "rss" [] [.elem "channel" []
    [.elem "title" [] [.text "Chan"],
     .elem "item" [] [.elem "title" [] [.text "T1"],
       .elem "link" [] [.text "https://x/a"],
       .elem "description" [] [.text "Hi <b>there</b>"]]]]],
  parseHtml := fun _ => .elem "html" [] [.elem "body" [] [.text "plain body text"]] }

def c4Article : Article :=
  { id := "0", feedId := "F", title := "T1", link := "https://x/a",
    pubDate := "1970-01-01T00:00:00.000Z", content := "Hi <b>there</b>",
    contentSnippet := "plain body text", thumbnail := none, author := none }

def c4Result : FeedResult := { title := "Chan", articles := [c4Article] }

/-- C4 (witness): the snippet bound evaluated on a concrete successful parse. -/
theorem parseXmlFeed_snippet_bounded_witness :
    jsLen c4Article.contentSnippet ≤ 303 ∧ '<' ∉ c4Article.contentSnippet.data :=
  parseXmlFeed_snippet_bounded c4Env "<rss/>" "F" "U" c4Result (by decide)
    (fun s => by
      change '<' ∉ (docBody (XNode.elem "html" []
        [XNode.elem "body" [] [XNode.text "plain body text"]])).textContent.data
      decide)
    c4Article (by decide)

/-! ## C2 -/

/-- C2: when the direct fetch-and-parse chain fails with the discovery
error and feed discovery on the carried HTML returns no URL or the input
URL itself, `fetchFeed` does not recurse and proceeds to the remote
fallback (first conjunct: the whole call is the single fallback result,
with exactly one direct-fetch event); a recursive call happens only when a
discovered URL differs from the input, and then with the same `feedId`
(second conjunct). -/
theorem fetchFeed_no_self_recursion (env : Env) (url feedId m html o : String) (fuel : Nat)
    (hd : directFetch env url feedId = .error (.discovery m html o)) :
    ((getFeedUrlFromHtml env html url = none ∨ getFeedUrlFromHtml env html url = some url) →
      fetchFeed env (fuel + 1) url feedId =
        (fetchWithRss2Json env url feedId, [.direct url, .discover url, .fallback url])) ∧
    (∀ d, getFeedUrlFromHtml env html url = some d → d ≠ "" → d ≠ url →
      fetchFeed env (fuel + 1) url feedId =
        ((fetchFeed env fuel d feedId).1,
          .direct url :: .discover url :: (fetchFeed env fuel d feedId).2)) := by
  constructor
  · intro hdisc
    rcases hdisc with h | h <;> simp [fetchFeed, hd, h]
  · intro d hdisc hne hnu
    simp [fetchFeed, hd, hdisc, hne, hnu]

/-- Environment for the C2 witness: every relay returns an HTML page with
no embedded feed link, so discovery yields nothing. -/
def c2Env : Env := { plainEnv with
  httpGet := fun _ => .ok { ok := true, status := 200, body := "<html><p>x</p></html>" } }

/-- C2 (witness): with discovery returning no URL, the call is exactly the
(failing) fallback, with a single direct-fetch event. -/
theorem fetchFeed_no_self_recursion_witness :
    fetchFeed c2Env 1 "https://ex.com" "f1" =
      (.error (.generic "offline"),
        [.direct "https://ex.com", .discover "https://ex.com", .fallback "https://ex.com"]) := by
  have h := (fetchFeed_no_self_recursion c2Env "https://ex.com" "f1"
    "Received HTML page instead of XML" "<html><p>x</p></html>" "https://ex.com" 0
    (by decide)).1 (Or.inl (by decide))
  rw [h]
  decide

/-! ## C3 -/

/-- C3: when the direct transport-plus-parse chain fails with a
non-discovery (generic) error — relay exhaustion or parse failure — the
remote fallback is invoked exactly once (single fallback event), and if the
fallback also fails, `fetchFeed` fails with the fallback's error verbatim,
not with the transport or parse error. -/
theorem fetchFeed_generic_falls_back_once (env : Env) (url feedId m : String) (fuel : Nat)
    (hd : directFetch env url feedId = .error (.generic m)) :
    fetchFeed env (fuel + 1) url feedId =
      (fetchWithRss2Json env url feedId, [.direct url, .fallback url]) ∧
    (fetchFeed env (fuel + 1) url feedId).2.count (.fallback url) = 1 ∧
    (∀ em, fetchWithRss2Json env url feedId = .error em →
      (fetchFeed env (fuel + 1) url feedId).1 = .error em) := by
  have h1 : fetchFeed env (fuel + 1) url feedId =
      (fetchWithRss2Json env url feedId, [.direct url, .fallback url]) := by
    simp [fetchFeed, hd]
  refine ⟨h1, ?_, ?_⟩
  · rw [h1]
    simp [List.count_cons, List.count_nil]
  · intro em hem
    rw [h1]
    simp [hem]

/-- Environment for the C3 witness: the network is down for every relay
(transport exhaustion) and the fallback converter is down too, with a
different message. -/
def c3Env : Env := { plainEnv with httpGet := fun _ => .error "net down" }

/-- C3 (witness): the call fails with the fallback's error `offline`, not
with the transport error `net down`, after exactly one fallback event. -/
theorem fetchFeed_generic_falls_back_once_witness :
    fetchFeed c3Env 1 "https://ex.com" "f1" =
      (.error (.generic "offline"), [.direct "https://ex.com", .fallback "https://ex.com"]) := by
  have h := (fetchFeed_generic_falls_back_once c3Env "https://ex.com" "f1" "net down" 0
    (by decide)).1
  rw [h]
  decide

/-! ## C9 -/

/-- C9: when the direct fetch of `url` fails with the discovery error and
discovery yields a different URL `d`, all subsequent work uses `d`: if the
recursive direct fetch of `d` fails with a non-discovery error, the
fallback is attempted with `d`, and no fallback event ever carries the
original `url`. -/
theorem fetchFeed_discovery_uses_new_url (env : Env) (url feedId m html o d m2 : String)
    (fuel : Nat)
    (hd : directFetch env url feedId = .error (.discovery m html o))
    (hdisc : getFeedUrlFromHtml env html url = some d)
    (hne : d ≠ "") (hnu : d ≠ url)
    (hd2 : directFetch env d feedId = .error (.generic m2)) :
    fetchFeed env (fuel + 2) url feedId =
      (fetchWithRss2Json env d feedId, [.direct url, .discover url, .direct d, .fallback d]) ∧
    Ev.fallback url ∉ (fetchFeed env (fuel + 2) url feedId).2 := by
  have h1 : fetchFeed env (fuel + 2) url feedId =
      (fetchWithRss2Json env d feedId,
        [.direct url, .discover url, .direct d, .fallback d]) := by
    simp [fetchFeed, hd, hdisc, hne, hnu, hd2]
  refine ⟨h1, ?_⟩
  rw [h1]
  simp [Ne.symm hnu]

/-- Environment for the C9 witness: relays serve an HTML page for the site
URL (whose proxy URLs contain `site`) and an unparseable document for every
other URL; the page links the feed URL `https://feed.b/rss`. -/
def c9Env : Env := { plainEnv with
  parseXml := fun _ => .elem "#document" [] [.elem "parsererror" [] [.text "E"]],
  parseHtml := fun _ => .elem "html" [] [.elem "head" []
    [.elem "link" [("type", "application/rss+xml"), ("href", "https://feed.b/rss")] []]],
  httpGet := fun pu =>
    .ok { ok := true, status := 200,
          body := if jsIncludes pu "site" then "<html><p>x</p></html>" else "bad xml" },
  resolveUrl := fun h _ => some h }

/-- C9 (witness): the fallback runs with the discovered URL, and no
fallback event carries the original URL. -/
theorem fetchFeed_discovery_uses_new_url_witness :
    fetchFeed c9Env 2 "https://site.a/" "f1" =
      (.error (.generic "offline"),
        [.direct "https://site.a/", .discover "https://site.a/",
         .direct "https://feed.b/rss", .fallback "https://feed.b/rss"]) ∧
    Ev.fallback "https://site.a/" ∉ (fetchFeed c9Env 2 "https://site.a/" "f1").2 := by
  have h := fetchFeed_discovery_uses_new_url c9Env "https://site.a/" "f1"
    "Received HTML page instead of XML" "<html><p>x</p></html>" "https://site.a/"
    "https://feed.b/rss" "Chyba při parsování XML: XML Parser Error: E" 0
    (by decide) (by decide) (by decide) (by decide) (by decide)
  exact ⟨by rw [h.1]; decide, h.2⟩

/-! ## C10 -/

/-- C10: on every successful fetch through either normalization path —
`parseXmlFeed` or `fetchWithRss2Json` — every article of the result has its
`feedId` field equal to the caller's `feedId` argument. -/
theorem articles_feedId_stamped (env : Env) (text url feedId : String) :
    (∀ r, parseXmlFeed env text feedId url = .ok r → ∀ a ∈ r.articles, a.feedId = feedId) ∧
    (∀ r, fetchWithRss2Json env url feedId = .ok r → ∀ a ∈ r.articles, a.feedId = feedId) := by
  constructor
  · intro r hok a ha
    simp only [parseXmlFeed] at hok
    split at hok
    · exact absurd hok (by simp)
    · split at hok
      · split at hok <;> exact absurd hok (by simp)
      · rw [Except.ok.injEq] at hok
        subst hok
        simp only [List.mem_map] at ha
        obtain ⟨p, _, hpa⟩ := ha
        subst hpa
        simp [processItem]
  · intro r hok a ha
    simp only [fetchWithRss2Json] at hok
    split at hok
    · exact absurd hok (by simp)
    · split at hok
      · exact absurd hok (by simp)
      · split at hok
        · exact absurd hok (by simp)
        · rw [Except.ok.injEq] at hok
          subst hok
          simp only [List.mem_map] at ha
          obtain ⟨p, _, hpa⟩ := ha
          subst hpa
          simp [r2jArticle]

/-- Environment for the C10 witness: the XML oracle of `c4Env` plus a
successful RSS2JSON response with one item. -/
def c10Env : Env := { c4Env with
  r2jFetch := fun _ =>
    .ok { ok := true, status := 200,
          payload := { status := "ok", message := "", feedTitle := "R2J",
                       items := [{ title := "t", link := "l", pubDate := "d",
                                   content := "c", description := "", thumbnail := "",
                                   enclosureLink := none, author := none }] } } }

def c10R2jArticle : Article :=
  { id := "0", feedId := "F", title := "t", link := "l", pubDate := "d",
    content := "c", contentSnippet := "c", thumbnail := none, author := none }

/-- C10 (witness): both normalization paths stamp the caller's feed id on a
concrete successful fetch. -/
theorem articles_feedId_stamped_witness :
    c4Article.feedId = "F" ∧ c10R2jArticle.feedId = "F" :=
  ⟨(articles_feedId_stamped c10Env "<rss/>" "U" "F").1
      { title := "Chan", articles := [c4Article] } (by decide) c4Article (by decide),
   (articles_feedId_stamped c10Env "<rss/>" "U" "F").2
      { title := "R2J", articles := [c10R2jArticle] } (by decide) c10R2jArticle (by decide)⟩

/-! ## C6 -/

/-- Observer: did a relay attempt fail? -/
def exceptFailed (x : Except String String) : Bool :=
  match x with
  | .error _ => true
  | .ok _ => false

theorem fetchRawTextGo_skip (env : Env) (url : String) (b : String → String)
    (bs : List (String → String)) (last : Option String) (e : String)
    (hb : tryProxy env url b = .error e) :
    fetchRawTextGo env url (b :: bs) last = fetchRawTextGo env url bs (some e) := by
  simp [fetchRawTextGo, hb]

theorem fetchRawTextGo_first_ok (env : Env) (url : String) (pre : List (String → String))
    (b : String → String) (bs : List (String → String)) (last : Option String) (body : String)
    (hpre : ∀ p ∈ pre, exceptFailed (tryProxy env url p) = true)
    (hb : tryProxy env url b = .ok body) :
    fetchRawTextGo env url (pre ++ b :: bs) last = .ok body := by
  induction pre generalizing last with
  | nil => simp [fetchRawTextGo, hb]
  | cons q qs ih =>
      have hq := hpre q (List.mem_cons_self q qs)
      cases htq : tryProxy env url q with
      | ok t => rw [htq] at hq; simp [exceptFailed] at hq
      | error e =>
          rw [List.cons_append, fetchRawTextGo_skip env url q (qs ++ b :: bs) last e htq]
          exact ih (some e) (fun p hp => hpre p (List.mem_cons_of_mem q hp))

theorem fetchRawTextGo_all_fail (env : Env) (url : String) :
    ∀ (l : List (String → String)) (b : String → String) (e : String) (last : Option String),
      (∀ p ∈ l, exceptFailed (tryProxy env url p) = true) →
      l.getLast? = some b → tryProxy env url b = .error e →
      fetchRawTextGo env url l last = .error e := by
  intro l
  induction l with
  | nil => intro b e last _ hlast _; simp at hlast
  | cons q qs ih =>
      intro b e last hall hlast hb
      cases htq : tryProxy env url q with
      | ok t =>
          have hq := hall q (List.mem_cons_self q qs)
          rw [htq] at hq; simp [exceptFailed] at hq
      | error e2 =>
          rw [fetchRawTextGo_skip env url q qs last e2 htq]
          cases qs with
          | nil =>
              simp only [List.getLast?_singleton, Option.some.injEq] at hlast
              subst hlast
              rw [htq] at hb
              cases hb
              simp [fetchRawTextGo]
          | cons r rs =>
              exact ih b e (some e2) (fun p hp => hall p (List.mem_cons_of_mem q hp))
                (by rw [← hlast]; exact (List.getLast?_cons_cons).symm ▸ rfl) hb

/-- C6: `fetchRawText` tries the relay URL builders in their fixed list
order (the per-attempt abort deadline being the 12000 ms constant):
whenever every builder in a prefix of `PROXIES` fails and the next one
succeeds, the overall call returns that body; if every relay fails it fails
with the last-recorded error; and with no relay left and no error recorded
it fails with the generic all-relays-failed error. -/
theorem fetchRawText_relay_policy (env : Env) (url : String) :
    timeoutMs = 12000 ∧
    (∀ pre b bs body, PROXIES env.nowMs = pre ++ b :: bs →
      (∀ p ∈ pre, exceptFailed (tryProxy env url p) = true) →
      tryProxy env url b = .ok body →
      fetchRawText env url = .ok body) ∧
    (∀ b e, (∀ p ∈ PROXIES env.nowMs, exceptFailed (tryProxy env url p) = true) →
      (PROXIES env.nowMs).getLast? = some b → tryProxy env url b = .error e →
      fetchRawText env url = .error e) ∧
    (∀ last, fetchRawTextGo env url [] last =
      .error (last.getD "Failed to fetch feed from all proxies")) := by
  refine ⟨rfl, ?_, ?_, ?_⟩
  · intro pre b bs body hsplit hpre hb
    unfold fetchRawText
    rw [hsplit]
    exact fetchRawTextGo_first_ok env url pre b bs none body hpre hb
  · intro b e hall hlast hb
    exact fetchRawTextGo_all_fail env url (PROXIES env.nowMs) b e none hall hlast hb
  · intro last
    simp [fetchRawTextGo]

/-- C6 (witness): with the network down, all four relays are tried and the
call fails with the last-recorded error. -/
theorem fetchRawText_relay_policy_witness :
    fetchRawText c3Env "https://ex.com" = .error "net down" :=
  (fetchRawText_relay_policy c3Env "https://ex.com").2.2.1
    (fun u => "https://thingproxy.freeboard.io/fetch/" ++ u) "net down"
    (by decide) rfl (by decide)

/-! ## C5 -/

/-- `Map.prototype.get` on the modelled insertion-ordered map. -/
def lookupLink (m : List (String × Article)) (k : String) : Option Article :=
  (m.find? (fun p => p.1 = k)).map (fun p => p.2)

theorem find?_congr_mem {α : Type} {p q : α → Bool} :
    ∀ (l : List α), (∀ a ∈ l, p a = q a) → l.find? p = l.find? q := by
  intro l
  induction l with
  | nil => intro _; rfl
  | cons a l ih =>
      intro h
      cases hpa : p a with
      | true =>
          rw [List.find?_cons_of_pos l hpa,
            List.find?_cons_of_pos l (by rw [← h a (List.mem_cons_self a l)]; exact hpa)]
      | false =>
          rw [List.find?_cons_of_neg l (by simp [hpa]),
            List.find?_cons_of_neg l (by rw [← h a (List.mem_cons_self a l)]; simp [hpa])]
          exact ih (fun x hx => h x (List.mem_cons_of_mem a hx))

theorem getLast?_cons_or {α : Type} (a : α) (xs : List α) :
    (a :: xs).getLast? = xs.getLast?.or (some a) := by
  cases xs with
  | nil => simp
  | cons b bs =>
      rw [List.getLast?_cons_cons]
      obtain ⟨v, hv⟩ := Option.isSome_iff_exists.mp (List.getLast?_isSome.mpr (by simp) :
        (b :: bs).getLast?.isSome)
      rw [hv]
      rfl

theorem mapSet_entries {m : List (String × Article)} {k : String} {v : Article}
    (hm : ∀ p ∈ m, p.1 = p.2.link) (hk : k = v.link) :
    ∀ p ∈ mapSet m k v, p.1 = p.2.link := by
  intro p hp
  unfold mapSet at hp
  split at hp
  · rw [List.mem_map] at hp
    obtain ⟨q, hq, rfl⟩ := hp
    split
    · exact hk
    · exact hm q hq
  · rw [List.mem_append] at hp
    rcases hp with hp | hp
    · exact hm p hp
    · simp only [List.mem_singleton] at hp
      subst hp
      exact hk

theorem mapSet_keys {m : List (String × Article)} {k : String} {v : Article} :
    (mapSet m k v).map (fun p => p.1) =
      if m.any (fun p => p.1 = k) then m.map (fun p => p.1)
      else m.map (fun p => p.1) ++ [k] := by
  unfold mapSet
  split
  · rw [List.map_map]
    apply List.map_congr_left
    intro q _
    dsimp only [Function.comp]
    split
    next hq => rw [hq]
    next => rfl
  · simp

theorem mapSet_keys_nodup {m : List (String × Article)} {k : String} {v : Article}
    (h : (m.map (fun p => p.1)).Nodup) : ((mapSet m k v).map (fun p => p.1)).Nodup := by
  rw [mapSet_keys]
  split
  · exact h
  next hany =>
    have hf : (m.any fun p => decide (p.1 = k)) = false := by
      cases h2 : (m.any fun p => decide (p.1 = k)) with
      | true => exact absurd h2 hany
      | false => rfl
    rw [List.nodup_append]
    refine ⟨h, List.nodup_singleton k, ?_⟩
    intro x hx hk
    simp only [List.mem_singleton] at hk
    subst hk
    rw [List.mem_map] at hx
    obtain ⟨q, hq, hq1⟩ := hx
    have := List.any_eq_false.mp hf q hq
    simp [hq1] at this

theorem mapSet_lookup {m : List (String × Article)} {k k' : String} {v : Article} :
    lookupLink (mapSet m k v) k' = if k' = k then some v else lookupLink m k' := by
  unfold mapSet lookupLink
  by_cases hk : k' = k
  · subst hk
    rw [if_pos rfl]
    split
    next hany =>
      rw [List.find?_map]
      have hpr : (fun p => decide (p.1 = k')) ∘ (fun p : String × Article =>
          if p.1 = k' then (k', v) else p) = fun p => decide (p.1 = k') := by
        funext p
        dsimp only [Function.comp]
        split <;> simp_all
      rw [hpr]
      obtain ⟨q, hq, hqk⟩ := List.any_eq_true.mp hany
      cases hfind : m.find? (fun p => decide (p.1 = k')) with
      | none =>
          rw [List.find?_eq_none] at hfind
          exact absurd hqk (by simpa using hfind q hq)
      | some q0 =>
          have hq0 := List.find?_some hfind
          simp only [decide_eq_true_eq] at hq0
          simp [hq0]
    next hany =>
      rw [List.find?_append]
      have hf : (m.any fun p => decide (p.1 = k')) = false := by
        cases h2 : (m.any fun p => decide (p.1 = k')) with
        | true => exact absurd h2 hany
        | false => rfl
      have hnone : m.find? (fun p => decide (p.1 = k')) = none := by
        rw [List.find?_eq_none]
        intro q hq
        have := List.any_eq_false.mp hf q hq
        simpa using this
      rw [hnone]
      simp
  · rw [if_neg hk]
    split
    next hany =>
      rw [List.find?_map]
      have hpr : (fun p => decide (p.1 = k')) ∘ (fun p : String × Article =>
          if p.1 = k then (k, v) else p) = fun p => decide (p.1 = k') := by
        funext p
        dsimp only [Function.comp]
        split
        next hp => simp [hp, fun h : k = k' => hk h.symm]
        next => rfl
      rw [hpr]
      cases hfind : m.find? (fun p => decide (p.1 = k')) with
      | none => rfl
      | some q0 =>
          have hq0 := List.find?_some hfind
          simp only [decide_eq_true_eq] at hq0
          have : (if q0.1 = k then (k, v) else q0) = q0 := by
            rw [if_neg]; rw [hq0]; exact hk
          simp [this]
    next hany =>
      rw [List.find?_append]
      have hsing : ([(k, v)].find? (fun p => decide (p.1 = k'))) = none := by
        simp [Ne.symm hk, fun h : k = k' => hk h.symm]
      rw [hsing]
      simp

theorem jsMapFold_lookup (l : List Article) :
    ∀ (m : List (String × Article)) (k : String),
      lookupLink (l.foldl (fun acc a => mapSet acc a.link a) m) k =
        ((l.filter (fun a => a.link = k)).getLast?).or (lookupLink m k) := by
  induction l with
  | nil => intro m k; simp
  | cons a l ih =>
      intro m k
      rw [List.foldl_cons, ih (mapSet m a.link a) k, mapSet_lookup]
      by_cases hk : k = a.link
      · rw [if_pos hk]
        rw [List.filter_cons_of_pos (by simp [hk])]
        rw [getLast?_cons_or, Option.or_assoc]
        rfl
      · rw [if_neg hk]
        rw [List.filter_cons_of_neg (by simp; intro h; exact hk h.symm)]

theorem jsMapFold_entries (l : List Article) :
    ∀ m, (∀ p ∈ m, p.1 = p.2.link) →
      ∀ p ∈ l.foldl (fun acc a => mapSet acc a.link a) m, p.1 = p.2.link := by
  induction l with
  | nil => intro m hm; simpa using hm
  | cons a l ih =>
      intro m hm
      rw [List.foldl_cons]
      exact ih (mapSet m a.link a) (mapSet_entries hm rfl)

theorem jsMapFold_nodup (l : List Article) :
    ∀ m, ((m.map (fun p => p.1)).Nodup) →
      (((l.foldl (fun acc a => mapSet acc a.link a) m).map (fun p => p.1)).Nodup) := by
  induction l with
  | nil => intro m hm; simpa using hm
  | cons a l ih =>
      intro m hm
      rw [List.foldl_cons]
      exact ih (mapSet m a.link a) (mapSet_keys_nodup hm)

theorem dedupByLink_find? (l : List Article) (k : String) :
    (dedupByLink l).find? (fun a => a.link = k) =
      (l.filter (fun a => a.link = k)).getLast? := by
  unfold dedupByLink
  rw [List.find?_map]
  have hinv := jsMapFold_entries l [] (by simp)
  have hcong := find?_congr_mem (p := (fun a : Article => decide (a.link = k)) ∘
      (fun p : String × Article => p.2)) (q := fun p => decide (p.1 = k))
    (jsMapOfLinks l) (by
      intro p hp
      dsimp only [Function.comp]
      rw [hinv p hp])
  unfold jsMapOfLinks at hcong ⊢
  rw [hcong]
  have := jsMapFold_lookup l [] k
  unfold lookupLink at this
  simpa using this

theorem dedupByLink_links_nodup (l : List Article) :
    ((dedupByLink l).map (fun a => a.link)).Nodup := by
  unfold dedupByLink
  rw [List.map_map]
  have hinv := jsMapFold_entries l [] (by simp)
  have hmaps : (jsMapOfLinks l).map ((fun a : Article => a.link) ∘ (fun p => p.2)) =
      (jsMapOfLinks l).map (fun p => p.1) :=
    List.map_congr_left (fun p hp => ((hinv p hp).symm : ((fun a : Article => a.link) ∘
      (fun p : String × Article => p.2)) p = p.1))
  rw [hmaps]
  exact jsMapFold_nodup l [] (by simp)

theorem dedupByLink_mem_links (l : List Article) (k : String) :
    k ∈ (dedupByLink l).map (fun a => a.link) ↔ k ∈ l.map (fun a => a.link) := by
  have hfind := dedupByLink_find? l k
  constructor
  · intro h
    rw [List.mem_map] at h
    obtain ⟨a, ha, hak⟩ := h
    have hsome : ((dedupByLink l).find? (fun a => a.link = k)).isSome :=
      List.find?_isSome.mpr ⟨a, ha, by simp [hak]⟩
    rw [hfind] at hsome
    have hne := List.getLast?_isSome.mp hsome
    obtain ⟨b, hb⟩ := List.exists_mem_of_ne_nil _ hne
    have hbl := List.mem_filter.mp hb
    rw [List.mem_map]
    exact ⟨b, hbl.1, by simpa using hbl.2⟩
  · intro h
    rw [List.mem_map] at h
    obtain ⟨a, ha, hak⟩ := h
    have hne : l.filter (fun a => a.link = k) ≠ [] :=
      List.ne_nil_of_mem (List.mem_filter.mpr ⟨ha, by simp [hak]⟩)
    have hsome := List.getLast?_isSome.mpr hne
    rw [← hfind] at hsome
    obtain ⟨b, hb, hbk⟩ := List.find?_isSome.mp hsome
    rw [List.mem_map]
    exact ⟨b, hb, by simpa using hbk⟩

/-- C5: after both article-state updates of the application — the refresh
merge (concatenation of the fetched lists) and the add-feed merge (previous
state plus newly fetched articles) — the stored collection holds exactly
one entry per distinct `link` value (its link projection has no duplicates
and covers exactly the links of the merged input), and the entry retained
for each link is the most recently fetched article carrying it (the last
occurrence in merge order). -/
theorem mergedArticles_dedup_by_link (results : List (List Article))
    (prev newArticles : List Article) (k : String) :
    (((refreshMergedArticles results).map (fun a => a.link)).Nodup ∧
      (refreshMergedArticles results).find? (fun a => a.link = k) =
        (results.flatten.filter (fun a => a.link = k)).getLast? ∧
      (k ∈ (refreshMergedArticles results).map (fun a => a.link) ↔
        k ∈ results.flatten.map (fun a => a.link))) ∧
    (((addFeedMergedArticles prev newArticles).map (fun a => a.link)).Nodup ∧
      (addFeedMergedArticles prev newArticles).find? (fun a => a.link = k) =
        ((prev ++ newArticles).filter (fun a => a.link = k)).getLast? ∧
      (k ∈ (addFeedMergedArticles prev newArticles).map (fun a => a.link) ↔
        k ∈ (prev ++ newArticles).map (fun a => a.link))) :=
  ⟨⟨dedupByLink_links_nodup _, dedupByLink_find? _ _, dedupByLink_mem_links _ _⟩,
   ⟨dedupByLink_links_nodup _, dedupByLink_find? _ _, dedupByLink_mem_links _ _⟩⟩

/-! ## C7 -/

/-- Does an item carry a date element with nonempty text (so that the
`|| new Date().toISOString()` default is not taken)? -/
def hasExplicitDate (item : XNode) : Bool :=
  match qsel item (byTags ["pubDate", "published", "updated", "date"]) with
  | some n => n.textContent != ""
  | none => false

/-- Do all items of a parsed document carry explicit dates? -/
def allItemsExplicitDates (doc : XNode) : Bool :=
  (qselAll doc (byTags ["item", "entry"])).all hasExplicitDate

/-- The fields of an article that do not depend on the platform clock or
the id generator. -/
def Article.stableCore (a : Article) :
    String × String × String × String × String × Option String × Option String :=
  (a.feedId, a.title, a.link, a.content, a.contentSnippet, a.thumbnail, a.author)

/-- `stableCore` plus the publish date. -/
def Article.datedCore (a : Article) :
    (String × String × String × String × String × Option String × Option String) × String :=
  (a.stableCore, a.pubDate)

def FeedResult.stableCore (r : FeedResult) :
    String × List (String × String × String × String × String × Option String × Option String) :=
  (r.title, r.articles.map Article.stableCore)

def FeedResult.datedCore (r : FeedResult) :
    String × List ((String × String × String × String × String × Option String × Option String)
      × String) :=
  (r.title, r.articles.map Article.datedCore)

/-- Environments of two parses of the same dateless one-item feed at
different times (the id generator agreeing on purpose). -/
def c7EnvA : Env := { plainEnv with
  parseXml := fun _ => .elem "#document" [] [.elem "rss" [] [.elem "channel" []
    [.elem "item" [] [.elem "title" [] [.text "T"]]]]],
  nowISO := "2024-01-01T00:00:00.000Z" }

def c7EnvB : Env := { c7EnvA with nowISO := "2024-01-02T00:00:00.000Z" }

/-- C7 (counterexample): parsing the same BOM-free text twice, at two
different clock readings and with identical generated ids, yields articles
whose `pubDate` fields differ — for an item without a date element the code
defaults to `new Date().toISOString()`, so more than the ids can differ. -/
theorem parseXmlFeed_not_fully_idempotent_cex :
    stripBom "<rss/>" = "<rss/>" ∧
    (parseXmlFeed c7EnvA "<rss/>" "F" "U").map (fun r => r.articles.map (fun a => a.id)) =
      (parseXmlFeed c7EnvB "<rss/>" "F" "U").map (fun r => r.articles.map (fun a => a.id)) ∧
    (parseXmlFeed c7EnvA "<rss/>" "F" "U").map (fun r => r.articles.map (fun a => a.pubDate)) ≠
      (parseXmlFeed c7EnvB "<rss/>" "F" "U").map (fun r => r.articles.map (fun a => a.pubDate)) := by
  decide

theorem processItem_stableCore (e1 e2 : Env) (hh : e1.parseHtml = e2.parseHtml)
    (f : String) (i j : Nat) (item : XNode) :
    (processItem e1 f i item).stableCore = (processItem e2 f j item).stableCore := by
  simp [processItem, Article.stableCore, hh]

theorem processItem_pubDate (e1 e2 : Env) (f : String) (i j : Nat) (item : XNode)
    (hd : hasExplicitDate item = true) :
    (processItem e1 f i item).pubDate = (processItem e2 f j item).pubDate := by
  unfold hasExplicitDate at hd
  cases hq : qsel item (byTags ["pubDate", "published", "updated", "date"]) with
  | none => rw [hq] at hd; simp at hd
  | some n =>
      rw [hq] at hd
      simp only [bne_iff_ne, ne_eq] at hd
      simp [processItem, textOr, hq, hd]

theorem processItem_datedCore (e1 e2 : Env) (hh : e1.parseHtml = e2.parseHtml)
    (f : String) (i j : Nat) (item : XNode) (hd : hasExplicitDate item = true) :
    (processItem e1 f i item).datedCore = (processItem e2 f j item).datedCore := by
  unfold Article.datedCore
  rw [processItem_stableCore e1 e2 hh f i j item, processItem_pubDate e1 e2 f i j item hd]

/-- C7 (amended): parsing is idempotent modulo the platform clock and id
generator: for two runs over the same deterministic DOM (same parse
oracles), the same text, feedId and original URL yield identical title,
links, content, snippets, thumbnails and authors for every article — and
identical dates too whenever every item carries a nonempty explicit date
element; an item without one receives the time of each call as `pubDate`
(ids differ by design). -/
theorem parseXmlFeed_idempotent_mod_ids (e1 e2 : Env) (t f u : String)
    (hx : e1.parseXml = e2.parseXml) (hh : e1.parseHtml = e2.parseHtml) :
    (parseXmlFeed e1 t f u).map FeedResult.stableCore =
      (parseXmlFeed e2 t f u).map FeedResult.stableCore ∧
    (allItemsExplicitDates (e1.parseXml (stripBom t)) = true →
      (parseXmlFeed e1 t f u).map FeedResult.datedCore =
        (parseXmlFeed e2 t f u).map FeedResult.datedCore) := by
  constructor
  · simp only [parseXmlFeed, hx]
    split
    · rfl
    · split
      · split <;> rfl
      · simp only [Except.map]
        rw [FeedResult.stableCore, FeedResult.stableCore]
        simp only [List.map_map, Function.comp]
        exact congrArg Except.ok (congrArg (Prod.mk _)
          (List.map_congr_left fun p _ => processItem_stableCore e1 e2 hh f p.1 p.1 p.2))
  · intro hall
    unfold allItemsExplicitDates at hall
    rw [List.all_eq_true] at hall
    simp only [parseXmlFeed, hx] at hall ⊢
    split
    · rfl
    · split
      · split <;> rfl
      · simp only [Except.map]
        rw [FeedResult.datedCore, FeedResult.datedCore]
        simp only [List.map_map, Function.comp]
        exact congrArg Except.ok (congrArg (Prod.mk _)
          (List.map_congr_left fun p hp => processItem_datedCore e1 e2 hh f p.1 p.1 p.2
            (hall p.2 (List.getElem?_mem (List.mem_enum_iff_getElem?.mp hp)))))

/-- Environments of two parses of a fully-dated feed at different times
and with different id generators. -/
def c7EnvD : Env := { plainEnv with
  parseXml := fun _ => .elem "#document" [] [.elem "rss" [] [.elem "channel" []
    [.elem "title" [] [.text "Chan"],
     .elem "item" [] [.elem "title" [] [.text "A1"],
       .elem "link" [] [.text "https://x/a"],
       .elem "pubDate" [] [.text "Mon, 01 Jan 2024 00:00:00 GMT"],
       .elem "description" [] [.text "hello"]]]]] }

def c7EnvE : Env := { c7EnvD with
  nowISO := "2030-05-05T05:05:05.000Z", genId := fun n => "w" ++ toString n }

/-- C7 (witness for the amended theorem): on a concrete dated feed, two
runs at different times with different id generators agree on everything
but the ids. -/
theorem parseXmlFeed_idempotent_mod_ids_witness :
    (parseXmlFeed c7EnvD "<rss/>" "F" "U").map FeedResult.stableCore =
      (parseXmlFeed c7EnvE "<rss/>" "F" "U").map FeedResult.stableCore ∧
    (parseXmlFeed c7EnvD "<rss/>" "F" "U").map FeedResult.datedCore =
      (parseXmlFeed c7EnvE "<rss/>" "F" "U").map FeedResult.datedCore :=
  ⟨(parseXmlFeed_idempotent_mod_ids c7EnvD c7EnvE "<rss/>" "F" "U" rfl rfl).1,
   (parseXmlFeed_idempotent_mod_ids c7EnvD c7EnvE "<rss/>" "F" "U" rfl rfl).2 (by decide)⟩

/-! ## C8 -/

/-- C8: the article corresponding to the `i`-th parsed item node selects
its thumbnail in this preference order: the (truthy) `url` attribute of the
first any-namespace `content` element; else, when an `enclosure` element
with a `type` starting with `image` is present, its `url` attribute; else
the `src` of the first inline `img` of the content parsed as HTML; else the
thumbnail is absent. -/
theorem parseXmlFeed_thumbnail_preference (env : Env) (text feedId url : String)
    (r : FeedResult) (i : Nat) (item : XNode) (v : String)
    (hok : parseXmlFeed env text feedId url = .ok r)
    (hitem : (qselAll (env.parseXml (stripBom text)) (byTags ["item", "entry"]))[i]? =
      some item) :
    ∀ a, r.articles[i]? = some a →
      (((nsFirst item "content").bind (fun m => jsAttrTruthy m "url") = some v →
        a.thumbnail = some v) ∧
      ((nsFirst item "content").bind (fun m => jsAttrTruthy m "url") = none →
        enclosureImageGuard (qsel item (byTags ["enclosure"])) = true →
        a.thumbnail =
          jsTruthyOpt ((qsel item (byTags ["enclosure"])).bind (fun e => e.attr "url"))) ∧
      (∀ im, (nsFirst item "content").bind (fun m => jsAttrTruthy m "url") = none →
        enclosureImageGuard (qsel item (byTags ["enclosure"])) = false →
        qsel (env.parseHtml (itemContent item)) (byTags ["img"]) = some im →
        a.thumbnail = jsTruthyOpt (im.attr "src")) ∧
      ((nsFirst item "content").bind (fun m => jsAttrTruthy m "url") = none →
        enclosureImageGuard (qsel item (byTags ["enclosure"])) = false →
        qsel (env.parseHtml (itemContent item)) (byTags ["img"]) = none →
        a.thumbnail = none)) := by
  intro a ha
  simp only [parseXmlFeed] at hok
  split at hok
  · exact absurd hok (by simp)
  · split at hok
    · split at hok <;> exact absurd hok (by simp)
    · rw [Except.ok.injEq] at hok
      subst hok
      rw [List.getElem?_map, List.enum_eq_enumFrom, List.getElem?_enumFrom, hitem] at ha
      simp only [Option.map_some', Option.some.injEq] at ha
      subst ha
      simp only [processItem]
      refine ⟨?_, ?_, ?_, ?_⟩
      · intro hm
        simp [itemThumbnail, hm]
      · intro hm hg
        simp [itemThumbnail, hm, hg]
      · intro im hm hg him
        simp [itemThumbnail, hm, hg, him, jsTruthyOpt]
      · intro hm hg him
        simp [itemThumbnail, hm, hg, him]

/-- Environment for the C8 witness: one item with an image enclosure and no
media `content` element. -/
def c8Env : Env := { plainEnv with
  parseXml := fun _ => .elem "#document" [] [.elem "rss" [] [.elem "channel" []
    [.elem "title" [] [.text "C8"],
     .elem "item" [] [.elem "title" [] [.text "T8"],
       .elem "enclosure" [("type", "image/png"), ("url", "https://img/p.png")] []]]]] }

def c8Item : XNode :=
  .elem "item" [] [.elem "title" [] [.text "T8"],
    .elem "enclosure" [("type", "image/png"), ("url", "https://img/p.png")] []]

def c8Article : Article :=
  { id := "0", feedId := "F8", title := "T8", link := "",
    pubDate := "1970-01-01T00:00:00.000Z", content := "", contentSnippet := "",
    thumbnail := some "https://img/p.png", author := none }

def c8Result : FeedResult := { title := "C8", articles := [c8Article] }

/-- C8 (witness): on a concrete item whose only thumbnail source is an
image enclosure, the enclosure branch provides the thumbnail. -/
theorem parseXmlFeed_thumbnail_preference_witness :
    c8Article.thumbnail = some "https://img/p.png" := by
  have h := parseXmlFeed_thumbnail_preference c8Env "<rss/>" "F8" "U8" c8Result 0 c8Item ""
    (by decide) (by rfl) c8Article (by decide)
  rw [h.2.1 (by decide) (by decide)]
  decide

end RSS
